import Mathlib


set_option maxRecDepth 4000

/-!
Shallow embedding of the TOTP / authentication core of the hikari-sushi
Cloudflare worker (file `src/worker/index.js`).

Bytes are modelled as `Nat` values below 256 and byte buffers as `List Nat`.
The JavaScript code builds bit strings out of `0`/`1` characters; a bit
string is modelled as `List Bool`, most significant bit first, matching the
the `toString(2).padStart(w, x30)` in the source.

External collaborators (WebCrypto HMAC-SHA1 and SHA-256, the D1 row store,
`crypto.randomUUID`, `Date.now`) are not part of the repository; they enter
the embedding as explicit parameters: an `hmacSha1` function argument, a
`hashP` password-hash function argument, explicit fresh tokens and clock
values, and an explicit database state threaded through each handler.

The JavaScript `for` loops that walk a bit string are embedded as
structurally recursive functions whose fuel argument is the loop bound
(the length of the traversed list), so that every definition evaluates
inside the kernel.
-/

/-- Big-endian bits of `n`, `w` bits wide: the model of
`n.toString(2).padStart(w, x30)` for `n < 2 ^ w`, and of the 8-bit groups
produced by the byte loop in `base32Encode`. -/
def natToBits : Nat → Nat → List Bool
  | 0, _ => []
  | w + 1, n => natToBits w (n / 2) ++ [decide (n % 2 = 1)]

/-- Big-endian numeric value of a bit string: the model of
`parseInt(bits, 2)`. -/
def bitsToNat (l : List Bool) : Nat :=
  l.foldl (fun acc b => 2 * acc + (if b then 1 else 0)) 0

/-- Successive 5-bit chunks of a bit string, the last chunk right-padded
with `false`: the model of the loop
`for (i = 0; i < bits.length; i += 5)` over
`bits.slice(i, i + 5).padEnd(5, x30)` in `base32Encode`. The fuel is the
loop bound `bits.length`. -/
def groupBits5 : Nat → List Bool → List (List Bool)
  | _, [] => []
  | 0, _ :: _ => []
  | fuel + 1, b :: bs =>
    let chunk := (b :: bs).take 5
    (chunk ++ List.replicate (5 - chunk.length) false) :: groupBits5 fuel (bs.drop 4)

/-- Successive full 8-bit chunks of a bit string, trailing bits that do not
form a full byte discarded: the model of the loop
`for (i = 0; i + 8 <= bits.length; i += 8)` in `base32Decode`. The fuel is
the loop bound `bits.length`. -/
def groupBits8 : Nat → List Bool → List (List Bool)
  | 0, _ => []
  | fuel + 1, l => if 8 ≤ l.length then l.take 8 :: groupBits8 fuel (l.drop 8) else []

/-- The RFC 4648 alphabet `BASE32_CHARS` from the worker. -/
def BASE32_CHARS : List Char := "ABCDEFGHIJKLMNOPQRSTUVWXYZ234567".toList

/-- `base32Encode(buffer)` from `src/worker/index.js`: concatenate the 8-bit
big-endian expansions of the bytes, split into 5-bit chunks (last chunk
zero-padded), and map each chunk value into the Base32 alphabet. -/
def base32Encode (buffer : List Nat) : List Char :=
  let bits := buffer.flatMap (natToBits 8)
  (groupBits5 bits.length bits).map (fun chunk => BASE32_CHARS.getD (bitsToNat chunk) 'A')

/-- The contribution of one character to the bit string in `base32Decode`:
`BASE32_CHARS.indexOf(char)` on the upper-cased character, skipped
(`continue`) when the character is outside the alphabet, otherwise its
5-bit big-endian expansion. -/
def base32CharBits (c : Char) : List Bool :=
  if BASE32_CHARS.contains c.toUpper then
    natToBits 5 (BASE32_CHARS.indexOf c.toUpper)
  else []

/-- `base32Decode(str)` from `src/worker/index.js`: accumulate 5 bits per
in-alphabet character (case-insensitively, ignoring other characters), then
read off the full 8-bit groups as bytes. -/
def base32Decode (s : List Char) : List Nat :=
  let bits := s.flatMap base32CharBits
  (groupBits8 bits.length bits).map bitsToNat

/-- JavaScript `s.padStart(n, c)`. -/
def padStart (s : String) (n : Nat) (c : Char) : String :=
  ⟨List.leftpad n c s.data⟩

/-- The 8 bytes of the counter buffer written by
`timeView.setBigUint64(0, BigInt(time))`: the big-endian 8-byte encoding of
`time` modulo `2 ^ 64`. The argument is an `Int` because `verifyTOTP`
offsets the counter by `i` ranging over `-w .. w`. -/
def counterBytes (time : Int) : List Nat :=
  (List.range 8).map (fun i => (time.emod (2 ^ 64)).toNat / 2 ^ (8 * (7 - i)) % 256)

/-- The RFC 4226 dynamic-truncation expression that appears verbatim in
both `generateTOTP` and the loop body of `verifyTOTP`:
`offset = hmac[hmac.length - 1] & 0x0f` followed by the masked big-endian
31-bit word built from `hmac[offset] .. hmac[offset + 3]`. -/
def truncate31 (h : List Nat) : Nat :=
  let offset := h.getLastD 0 &&& 0x0f
  ((h.getD offset 0 &&& 0x7f) <<< 24) |||
    ((h.getD (offset + 1) 0 &&& 0xff) <<< 16) |||
    ((h.getD (offset + 2) 0 &&& 0xff) <<< 8) |||
    (h.getD (offset + 3) 0 &&& 0xff)

/-- `generateTOTP(secret, timeStep = 30, digits = 6)` from the worker. The
implicit `Date.now()` is the explicit `nowMs` argument and WebCrypto
HMAC-SHA1 is the explicit `hmacSha1` argument; the defaults 30 and 6 are
passed explicitly at every use site. -/
def generateTOTP (hmacSha1 : List Nat → List Nat → List Nat) (nowMs : Nat)
    (secret : String) (timeStep : Nat) (digits : Nat) : String :=
  let time := nowMs / 1000 / timeStep
  let key := base32Decode secret.toList
  let hmac := hmacSha1 key (counterBytes (time : Int))
  let code := truncate31 hmac % 10 ^ digits
  padStart (Nat.repr code) digits '0'

/-- The code that `verifyTOTP` computes for one counter value `t` (the body
of its drift loop): decode the secret, HMAC the counter bytes, truncate,
reduce modulo 1000000, and zero-pad to 6 characters. -/
def verifyStepCode (hmacSha1 : List Nat → List Nat → List Nat)
    (secret : String) (t : Int) : String :=
  let key := base32Decode secret.toList
  let hmac := hmacSha1 key (counterBytes t)
  let generatedCode := truncate31 hmac % 1000000
  padStart (Nat.repr generatedCode) 6 '0'

/-- `verifyTOTP(secret, code, window = 1)` from the worker: the loop
`for (i = -window; i <= window; i++)` with an early `return true` on a
match is the `List.any` over the offsets `-w .. w`. -/
def verifyTOTP (hmacSha1 : List Nat → List Nat → List Nat) (nowMs : Nat)
    (secret : String) (code : String) (w : Nat) : Bool :=
  let timeStep := 30
  let currentTime := nowMs / 1000 / timeStep
  ((List.range (2 * w + 1)).map (fun (j : Nat) => (j : Int) - (w : Int))).any
    (fun i => verifyStepCode hmacSha1 secret ((currentTime : Int) + i) == code)

/-- Written from the words of the spec, for comparison against
`generateTOTP` (claim C3): take the low 4 bits of the last HMAC byte as an
offset, extract 4 bytes starting at that offset, mask the first of those
bytes with 0x7F, read the 4 bytes as a big-endian unsigned integer, reduce
modulo `10 ^ digits`, left-pad with zeros to `digits` characters. -/
def specTruncate (h : List Nat) (digits : Nat) : String :=
  let offset := h.getLastD 0 % 16
  let b0 := h.getD offset 0 % 128
  let b1 := h.getD (offset + 1) 0
  let b2 := h.getD (offset + 2) 0
  let b3 := h.getD (offset + 3) 0
  let value := ((b0 * 256 + b1) * 256 + b2) * 256 + b3
  padStart (Nat.repr (value % 10 ^ digits)) digits '0'

/-- A concrete stand-in for the external WebCrypto HMAC-SHA1 used by the
witness theorems: 20 bytes below 256 whose values depend on the last
counter byte, so that adjacent counters give distinct codes. -/
def dummyHmac (key msg : List Nat) : List Nat :=
  (List.range 20).map (fun i => (i + 37 * msg.getD 7 0 + key.sum) % 256)

/-- A concrete stand-in for the external salted SHA-256 password hash used
by the witness theorems. -/
def dummyHash (password : String) : String :=
  password ++ "-hashed"

/-- Truthiness of a nullable TEXT column under JavaScript: `null` and the
empty string are falsy. -/
def optTruthy : Option String → Bool
  | none => false
  | some s => !s.isEmpty

/-- A row of the `admin_users` table (columns used by the auth handlers). -/
structure AdminUser where
  id : Nat
  email : String
  password_hash : String
  name : String
  totp_secret : Option String
  totp_enabled : Nat
  last_login : Option Nat
deriving DecidableEq

/-- Gregorian calendar date (year, month, day) of a day count since
1970-01-01, the civil-from-days conversion used to model the external
date-rendering functions below. -/
def civilFromDays (days : Nat) : Nat × Nat × Nat :=
  let z := days + 719468
  let era := z / 146097
  let doe := z % 146097
  let yoe := (doe - doe / 1460 + doe / 36524 - doe / 146096) / 365
  let doy := doe - (365 * yoe + yoe / 4 - yoe / 100)
  let mp := (5 * doy + 2) / 153
  let d := doy - (153 * mp + 2) / 5 + 1
  let m := if mp < 10 then mp + 3 else mp - 9
  let y := era * 400 + yoe + (if m ≤ 2 then 1 else 0)
  (y, m, d)

/-- Left-pad a number below 100 to two digits. -/
def pad2 (n : Nat) : String := if n < 10 then "0" ++ Nat.repr n else Nat.repr n

/-- Left-pad a number below 1000 to three digits. -/
def pad3 (n : Nat) : String :=
  if n < 10 then "00" ++ Nat.repr n else if n < 100 then "0" ++ Nat.repr n else Nat.repr n

/-- The external `new Date(ms).toISOString()` (for years 1970 to 9999):
`YYYY-MM-DDTHH:MM:SS.sssZ`. This is the text the worker stores in
`sessions.expires_at`. -/
def isoString (ms : Nat) : String :=
  let days := ms / 86400000
  let rem := ms % 86400000
  let ymd := civilFromDays days
  Nat.repr ymd.1 ++ "-" ++ pad2 ymd.2.1 ++ "-" ++ pad2 ymd.2.2 ++ "T" ++
    pad2 (rem / 3600000) ++ ":" ++ pad2 (rem % 3600000 / 60000) ++ ":" ++
    pad2 (rem % 60000 / 1000) ++ "." ++ pad3 (rem % 1000) ++ "Z"

/-- The external SQLite `datetime(now)` rendering of the current UTC time:
`YYYY-MM-DD HH:MM:SS` — note the space where `toISOString` has the letter
T, and the absence of fractional seconds and of the trailing Z. -/
def sqliteNow (ms : Nat) : String :=
  let days := ms / 86400000
  let rem := ms % 86400000
  let ymd := civilFromDays days
  Nat.repr ymd.1 ++ "-" ++ pad2 ymd.2.1 ++ "-" ++ pad2 ymd.2.2 ++ " " ++
    pad2 (rem / 3600000) ++ ":" ++ pad2 (rem % 3600000 / 60000) ++ ":" ++
    pad2 (rem % 60000 / 1000)

/-- Lexicographic comparison of character lists by code point: SQLite
BINARY collation on ASCII text (byte order and code-point order agree). -/
def charListLt : List Char → List Char → Bool
  | [], [] => false
  | [], _ :: _ => true
  | _ :: _, [] => false
  | a :: as, b :: bs =>
    if a.toNat < b.toNat then true
    else if b.toNat < a.toNat then false
    else charListLt as bs

/-- SQLite TEXT comparison of two strings (BINARY collation): how the
store compares the stored `expires_at` against `datetime(now)`, since the
stored ISO text is not numeric and both operands stay TEXT. -/
def textLt (a b : String) : Bool := charListLt a.data b.data

/-- A row of the `sessions` table. `expires_at` holds the text produced by
`new Date(...).toISOString()` exactly as the worker stores it. -/
structure Session where
  user_id : Nat
  token : String
  expires_at : String
deriving DecidableEq

/-- The D1 database state visible to the auth handlers. -/
structure DB where
  admin_users : List AdminUser
  sessions : List Session
deriving DecidableEq

/-- `SELECT * FROM admin_users WHERE email = ? AND password_hash = ?`. -/
def findUserByEmailHash (db : DB) (email hash : String) : Option AdminUser :=
  db.admin_users.find? (fun u => u.email == email && u.password_hash == hash)

/-- `SELECT * FROM admin_users WHERE id = ? AND password_hash = ?`. -/
def findUserByIdHash (db : DB) (id : Nat) (hash : String) : Option AdminUser :=
  db.admin_users.find? (fun u => u.id == id && u.password_hash == hash)

/-- `SELECT ... FROM admin_users WHERE id = ?`. -/
def findUserById (db : DB) (id : Nat) : Option AdminUser :=
  db.admin_users.find? (fun u => u.id == id)

/-- The session-join query shared by `verify2FALogin` and `checkAuth`:
`SELECT s.*, u... FROM sessions s JOIN admin_users u ON s.user_id = u.id
WHERE s.token = ? AND s.expires_at > datetime(now)`. The stored
`expires_at` is `toISOString` text and `datetime(now)` is SQLite text in
the space-separated format, so the comparison is lexicographic between the
two formats, not a comparison of instants: on a shared UTC date it is
decided by the eleventh character, where the letter T (0x54) of the stored
text exceeds the space (0x20) of `datetime(now)`. -/
def findLiveSession (db : DB) (token : String) (nowMs : Nat) :
    Option (Session × AdminUser) := do
  let s ← db.sessions.find? (fun s => s.token == token && textLt (sqliteNow nowMs) s.expires_at)
  let u ← db.admin_users.find? (fun u => u.id == s.user_id)
  pure (s, u)

/-- `DELETE FROM sessions WHERE token = ?`. -/
def deleteSession (db : DB) (token : String) : DB :=
  { db with sessions := db.sessions.filter (fun s => !(s.token == token)) }

/-- `INSERT INTO sessions (user_id, token, expires_at) VALUES (?, ?, ?)`. -/
def insertSession (db : DB) (s : Session) : DB :=
  { db with sessions := db.sessions ++ [s] }

/-- `UPDATE admin_users SET last_login = CURRENT_TIMESTAMP WHERE id = ?`. -/
def updateLastLogin (db : DB) (id : Nat) (nowMs : Nat) : DB :=
  let users := db.admin_users.map
    (fun u => if u.id == id then { u with last_login := some nowMs } else u)
  { db with admin_users := users }

/-- `UPDATE admin_users SET ... WHERE id = ?` with an arbitrary SET
clause `f`. -/
def updateUser (db : DB) (id : Nat) (f : AdminUser → AdminUser) : DB :=
  let users := db.admin_users.map (fun u => if u.id == id then f u else u)
  { db with admin_users := users }

/-- `generate2FASecret()`: Base32-encode 20 random bytes; the random bytes
come from the external `crypto.getRandomValues` and are a parameter here. -/
def generate2FASecret (randomBytes : List Nat) : String :=
  ⟨base32Encode randomBytes⟩

/-- The observable outcomes of `handleLogin` (the JSON body shapes;
`missingFields` is the 400 `Email and password required` response and
`invalidCredentials` the 401 `Invalid credentials` response). -/
inductive LoginResponse where
  | missingFields
  | invalidCredentials
  | requires2FA (tempToken : String)
  | loggedIn (token : String) (userId : Nat) (email name : String)
deriving DecidableEq

/-- `handleLogin(request, env)` from the worker. The request body fields
are the `email` and `password` arguments; the salted SHA-256 digest is the
`hashP` argument, the `generateToken()` result is `freshTok`, and
`Date.now()` is `nowMs`. A single SQL lookup matches email and password
hash together, so an unknown email and a wrong password take the same
branch. -/
def handleLogin (hashP : String → String) (freshTok : String) (nowMs : Nat)
    (db : DB) (email password : String) : LoginResponse × DB :=
  if email.isEmpty || password.isEmpty then (.missingFields, db)
  else
    let passwordHash := hashP password
    match findUserByEmailHash db email passwordHash with
    | none => (.invalidCredentials, db)
    | some user =>
      if optTruthy user.totp_secret && user.totp_enabled != 0 then
        let tempToken := "pending-2fa-" ++ freshTok
        (.requires2FA tempToken,
          insertSession db ⟨user.id, tempToken, isoString (nowMs + 5 * 60 * 1000)⟩)
      else
        let db1 := insertSession db
          ⟨user.id, freshTok, isoString (nowMs + 7 * 24 * 60 * 60 * 1000)⟩
        (.loggedIn freshTok user.id user.email user.name,
          updateLastLogin db1 user.id nowMs)

/-- The observable outcomes of `verify2FALogin`: `invalidToken` is the 401
`Invalid token`, `sessionExpired` the 401 `Session expired, please login
again`, `invalidCode` the 401 `Invalid 2FA code`. -/
inductive Verify2FAResponse where
  | missingFields
  | invalidToken
  | sessionExpired
  | invalidCode
  | loggedIn (token : String) (userId : Nat) (email name : String)
deriving DecidableEq

/-- Whether a `verify2FALogin` outcome is the success response. -/
def isLoggedIn2FA : Verify2FAResponse → Bool
  | .loggedIn _ _ _ _ => true
  | _ => false

/-- `verify2FALogin(request, env)` from the worker: check the
`pending-2fa-` tag on the token (`tempToken.startsWith`), look up the live
pending session joined with its user, verify the TOTP code, then delete
the pending session row, insert a 7-day full session under the fresh
token, and update the last login. -/
def verify2FALogin (hmacSha1 : List Nat → List Nat → List Nat)
    (freshTok : String) (nowMs : Nat) (db : DB)
    (tempToken code : String) : Verify2FAResponse × DB :=
  if tempToken.isEmpty || code.isEmpty then (.missingFields, db)
  else if !("pending-2fa-".toList.isPrefixOf tempToken.toList) then (.invalidToken, db)
  else
    match findLiveSession db tempToken nowMs with
    | none => (.sessionExpired, db)
    | some (s, u) =>
      if !(verifyTOTP hmacSha1 nowMs (u.totp_secret.getD "") code 1) then
        (.invalidCode, db)
      else
        let db1 := deleteSession db tempToken
        let db2 := insertSession db1
          ⟨s.user_id, freshTok, isoString (nowMs + 7 * 24 * 60 * 60 * 1000)⟩
        (.loggedIn freshTok s.user_id u.email u.name,
          updateLastLogin db2 s.user_id nowMs)

/-- Removal of the first occurrence of `pat`: the model of the JavaScript
`header.replace(pattern, emptyString)` used to strip the `Bearer ` marker. -/
def removeFirst (pat : List Char) : List Char → List Char
  | [] => []
  | c :: cs =>
    if pat.isPrefixOf (c :: cs) then (c :: cs).drop pat.length
    else c :: removeFirst pat cs

/-- `request.headers.get(Authorization)?.replace(Bearer, empty)`. -/
def bearerToken (authHeader : Option String) : Option String :=
  authHeader.map (fun h => ⟨removeFirst "Bearer ".toList h.toList⟩)

/-- `checkAuth(request, env)` from the worker: extract the bearer token,
reject a missing or empty token, and look up a live (unexpired) session
joined with its user. The source returns `{valid, user}` where `valid` is
true exactly when a user is found; here the user triple is returned and
`valid` is its presence. -/
def checkAuth (db : DB) (nowMs : Nat) (authHeader : Option String) :
    Option (Nat × String × String) :=
  match bearerToken authHeader with
  | none => none
  | some token =>
    if token.isEmpty then none
    else
      match findLiveSession db token nowMs with
      | none => none
      | some (s, u) => some (s.user_id, u.email, u.name)

/-- `verifySession(request, env)`: the `{valid, user}` JSON body. -/
def verifySession (db : DB) (nowMs : Nat) (authHeader : Option String) :
    Bool × Option (Nat × String × String) :=
  ((checkAuth db nowMs authHeader).isSome, checkAuth db nowMs authHeader)

/-- The observable outcomes of `setup2FA` (the provisioning URI and QR URL
are presentation data derived from the secret and are omitted). -/
inductive Setup2FAResponse where
  | unauthorized
  | ok (secret : String)
deriving DecidableEq

/-- `setup2FA(request, env)` from the worker: require auth, generate a
fresh secret, and store it with `totp_enabled = 0`. -/
def setup2FA (randomBytes : List Nat) (nowMs : Nat) (db : DB)
    (authHeader : Option String) : Setup2FAResponse × DB :=
  match checkAuth db nowMs authHeader with
  | none => (.unauthorized, db)
  | some (uid, _, _) =>
    let secret := generate2FASecret randomBytes
    (.ok secret,
      updateUser db uid (fun u => { u with totp_secret := some secret, totp_enabled := 0 }))

/-- The observable outcomes of `verify2FASetup`: `codeRequired` is the 400
`Code required`, `setupNotStarted` the 400 `Please start 2FA setup first`,
`invalidCode` the 400 `Invalid code. Please try again.`. -/
inductive Verify2FASetupResponse where
  | unauthorized
  | codeRequired
  | setupNotStarted
  | invalidCode
  | enabled
deriving DecidableEq

/-- `verify2FASetup(request, env)` from the worker: require auth and a
code, fetch the pending secret, reject when it is absent (JavaScript
truthiness: null or empty), verify the code against it, and only then set
`totp_enabled = 1`. -/
def verify2FASetup (hmacSha1 : List Nat → List Nat → List Nat) (nowMs : Nat)
    (db : DB) (authHeader : Option String) (code : String) :
    Verify2FASetupResponse × DB :=
  match checkAuth db nowMs authHeader with
  | none => (.unauthorized, db)
  | some (uid, _, _) =>
    if code.isEmpty then (.codeRequired, db)
    else
      match findUserById db uid with
      | none => (.setupNotStarted, db)
      | some user =>
        if !(optTruthy user.totp_secret) then (.setupNotStarted, db)
        else if !(verifyTOTP hmacSha1 nowMs (user.totp_secret.getD "") code 1) then
          (.invalidCode, db)
        else
          (.enabled, updateUser db uid (fun u => { u with totp_enabled := 1 }))

/-- The observable outcomes of `disable2FA`: `passwordRequired` is the 400
`Password required`, `invalidPassword` the 400 `Invalid password`,
`codeRequired` the 400 `2FA code required`, `invalidCode` the 400
`Invalid 2FA code`. -/
inductive Disable2FAResponse where
  | unauthorized
  | passwordRequired
  | invalidPassword
  | codeRequired
  | invalidCode
  | disabled
deriving DecidableEq

/-- `disable2FA(request, env)` from the worker: require auth, require and
re-verify the password by id+hash lookup, and when 2FA is currently
enabled additionally require and verify a current code; on success clear
the secret and the flag in one UPDATE. The source guards the code checks
inside one `if (user.totp_enabled && user.totp_secret)` block and falls
through to the UPDATE; here that block is flattened into two guarded
early-error branches followed by the same single UPDATE. -/
def disable2FA (hashP : String → String) (hmacSha1 : List Nat → List Nat → List Nat)
    (nowMs : Nat) (db : DB) (authHeader : Option String)
    (codeIn passwordIn : Option String) : Disable2FAResponse × DB :=
  match checkAuth db nowMs authHeader with
  | none => (.unauthorized, db)
  | some (uid, _, _) =>
    if !(optTruthy passwordIn) then (.passwordRequired, db)
    else
      let passwordHash := hashP (passwordIn.getD "")
      match findUserByIdHash db uid passwordHash with
      | none => (.invalidPassword, db)
      | some user =>
        if user.totp_enabled != 0 && optTruthy user.totp_secret
            && !(optTruthy codeIn) then (.codeRequired, db)
        else if user.totp_enabled != 0 && optTruthy user.totp_secret
            && !(verifyTOTP hmacSha1 nowMs (user.totp_secret.getD "")
                  (codeIn.getD "") 1) then (.invalidCode, db)
        else
          (.disabled, updateUser db uid
            (fun u => { u with totp_secret := none, totp_enabled := 0 }))

/-- The AdminUser data-model invariant: the TOTP secret is non-null
whenever the TOTP-enabled flag is set. -/
def totpInvariant (db : DB) : Prop :=
  ∀ u ∈ db.admin_users, u.totp_enabled ≠ 0 → u.totp_secret ≠ none

/-- Concrete admin row for the witness theorems: password `pw` under
`dummyHash`, 2FA enabled with secret `GEZDGNBV`. -/
def userA : AdminUser :=
  ⟨1, "a@b.com", "pw-hashed", "Admin", some "GEZDGNBV", 1, none⟩

/-- Concrete database for the 2FA-management witness theorems and the C7
code-bug exhibit: one admin and one full session stored with the ISO
rendering of the expiry instant 1000 ms. -/
def dbA : DB := ⟨[userA], [⟨1, "T", isoString 1000⟩]⟩

/-- Concrete database for the pending-token witness theorem: one admin and
one live pending-2FA session. -/
def dbPending : DB := ⟨[userA], [⟨1, "pending-2fa-X", isoString 3000001⟩]⟩
theorem natToBits_length (w n : Nat) : (natToBits w n).length = w := by
  induction w generalizing n with
  | zero => rfl
  | succ w ih =>
    rw [natToBits]
    simp only [List.length_append, List.length_cons, List.length_nil, ih]

theorem bitsToNat_aux (l : List Bool) (acc : Nat) :
    l.foldl (fun acc b => 2 * acc + (if b then 1 else 0)) acc =
      acc * 2 ^ l.length + bitsToNat l := by
  induction l generalizing acc with
  | nil => simp [bitsToNat]
  | cons b bs ih =>
    have h1 := ih (2 * acc + (if b then 1 else 0))
    have h2 := ih (2 * 0 + (if b then 1 else 0))
    simp only [List.foldl_cons, List.length_cons, bitsToNat] at h1 h2 ⊢
    rw [h1, h2]
    ring

theorem bitsToNat_append (l1 l2 : List Bool) :
    bitsToNat (l1 ++ l2) = bitsToNat l1 * 2 ^ l2.length + bitsToNat l2 := by
  simp only [bitsToNat, List.foldl_append]
  rw [bitsToNat_aux]
  rfl

theorem bitsToNat_single (b : Bool) : bitsToNat [b] = if b then 1 else 0 := by
  rcases b <;> rfl

theorem bitsToNat_concat (bs : List Bool) (b : Bool) :
    bitsToNat (bs ++ [b]) = bitsToNat bs * 2 + (if b then 1 else 0) := by
  rw [bitsToNat_append, bitsToNat_single]
  simp

theorem bitsToNat_natToBits (w n : Nat) :
    bitsToNat (natToBits w n) = n % 2 ^ w := by
  induction w generalizing n with
  | zero =>
    simp [natToBits, bitsToNat, Nat.mod_one]
  | succ w ih =>
    rw [natToBits, bitsToNat_concat, ih]
    have h2 : (2 : Nat) ^ (w + 1) = 2 * 2 ^ w := by ring
    rw [h2, Nat.mod_mul]
    rcases Nat.mod_two_eq_zero_or_one n with h | h <;> simp [h] <;> omega

theorem bitsToNat_lt (l : List Bool) : bitsToNat l < 2 ^ l.length := by
  induction l using List.reverseRecOn with
  | nil => simp [bitsToNat]
  | append_singleton bs b ih =>
    rw [bitsToNat_concat]
    simp only [List.length_append, List.length_cons, List.length_nil, pow_succ]
    rcases b <;> simp <;> omega

theorem natToBits_bitsToNat (l : List Bool) (w : Nat) (hw : l.length = w) :
    natToBits w (bitsToNat l) = l := by
  induction l using List.reverseRecOn generalizing w with
  | nil =>
    simp at hw
    subst hw
    rfl
  | append_singleton bs b ih =>
    simp only [List.length_append, List.length_cons, List.length_nil] at hw
    subst hw
    rw [bitsToNat_concat, natToBits]
    have hdiv : (bitsToNat bs * 2 + if b then 1 else 0) / 2 = bitsToNat bs := by
      rcases b <;> simp <;> omega
    have hmod : (bitsToNat bs * 2 + if b then 1 else 0) % 2 = (if b then 1 else 0) := by
      rcases b <;> simp [Nat.add_mul_mod_self_left] <;> omega
    rw [hdiv, hmod, ih bs.length rfl]
    rcases b <;> simp

theorem groupBits5_chunks_length (fuel : Nat) (l : List Bool) (hf : l.length ≤ fuel) :
    ∀ c ∈ groupBits5 fuel l, c.length = 5 := by
  induction fuel generalizing l with
  | zero =>
    intro c hc
    have hnil : l = [] := List.eq_nil_of_length_eq_zero (by omega)
    subst hnil
    simp [groupBits5] at hc
  | succ fuel ih =>
    intro c hc
    cases l with
    | nil => simp [groupBits5] at hc
    | cons b bs =>
      simp only [groupBits5] at hc
      rcases List.mem_cons.mp hc with h1 | h1
      · subst h1
        simp only [List.length_append, List.length_take, List.length_replicate,
          List.length_cons]
        omega
      · refine ih (bs.drop 4) ?_ c h1
        simp only [List.length_cons] at hf
        simp only [List.length_drop]
        omega

theorem groupBits5_flatten (fuel : Nat) (l : List Bool) (hf : l.length ≤ fuel) :
    (groupBits5 fuel l).flatten = l ++ List.replicate ((5 - l.length % 5) % 5) false := by
  induction fuel generalizing l with
  | zero =>
    have hnil : l = [] := List.eq_nil_of_length_eq_zero (by omega)
    subst hnil
    simp [groupBits5]
  | succ fuel ih =>
    cases l with
    | nil => simp [groupBits5]
    | cons b bs =>
    have ihd := ih (bs.drop 4) (by
      simp only [List.length_cons] at hf
      simp only [List.length_drop]
      omega)
    simp only [groupBits5, List.flatten_cons, ihd]
    by_cases h : (b :: bs).length ≤ 5
    · simp only [List.length_cons] at h
      have hdrop : bs.drop 4 = [] := List.drop_eq_nil_of_le (by omega)
      have htake : (b :: bs).take 5 = b :: bs :=
        List.take_of_length_le (by simp only [List.length_cons]; omega)
      rw [hdrop, htake]
      simp only [groupBits5, List.flatten_nil, List.append_nil, List.append_assoc,
        List.length_cons]
      simp only [List.length_nil, Nat.zero_mod, Nat.sub_zero, Nat.mod_self,
        List.replicate_zero, List.append_nil]
      have hc : 5 - (bs.length + 1) = (5 - (bs.length + 1) % 5) % 5 := by omega
      rw [hc]
    · simp only [List.length_cons] at h
      have htake5 : ((b :: bs).take 5).length = 5 := by
        simp only [List.length_take, List.length_cons]
        omega
      have hsplit : (b :: bs).take 5 ++ (b :: bs).drop 5 = b :: bs :=
        List.take_append_drop _ _
      have hdrop45 : bs.drop 4 = (b :: bs).drop 5 := rfl
      rw [htake5]
      simp only [Nat.sub_self, List.replicate_zero, List.append_nil, hdrop45]
      rw [← List.append_assoc, hsplit]
      congr 2
      simp only [List.length_drop, List.length_cons]
      omega

theorem groupBits8_short (fuel : Nat) (l : List Bool) (h : l.length < 8) :
    groupBits8 fuel l = [] := by
  cases fuel with
  | zero => rfl
  | succ fuel => rw [groupBits8, if_neg (by omega)]

theorem groupBits8_fuel (f1 : Nat) : ∀ (f2 : Nat) (l : List Bool),
    l.length ≤ f1 → l.length ≤ f2 → groupBits8 f1 l = groupBits8 f2 l := by
  induction f1 with
  | zero =>
    intro f2 l h1 h2
    have hnil : l = [] := List.eq_nil_of_length_eq_zero (by omega)
    subst hnil
    cases f2 with
    | zero => rfl
    | succ f2 => rw [groupBits8, groupBits8, if_neg (by simp)]
  | succ f1 ih =>
    intro f2 l h1 h2
    cases f2 with
    | zero =>
      have hnil : l = [] := List.eq_nil_of_length_eq_zero (by omega)
      subst hnil
      rw [groupBits8, groupBits8, if_neg (by simp)]
    | succ f2 =>
      rw [groupBits8, groupBits8]
      by_cases h8 : 8 ≤ l.length
      · rw [if_pos h8, if_pos h8]
        congr 1
        refine ih f2 (l.drop 8) ?_ ?_ <;> simp only [List.length_drop] <;> omega
      · rw [if_neg h8, if_neg h8]

theorem groupBits8_append (fuel : Nat) (l rest : List Bool) (h : l.length = 8)
    (hf : l.length + rest.length ≤ fuel) :
    groupBits8 fuel (l ++ rest) = l :: groupBits8 rest.length rest := by
  cases fuel with
  | zero => omega
  | succ fuel =>
    rw [groupBits8, if_pos (by simp only [List.length_append]; omega)]
    congr 1
    · rw [← h]; exact List.take_left l rest
    · rw [show (l ++ rest).drop 8 = rest by rw [← h]; exact List.drop_left l rest]
      refine groupBits8_fuel fuel rest.length rest ?_ le_rfl
      omega

theorem groupBits8_bytes (buffer : List Nat) (pad : List Bool)
    (hpad : pad.length < 8) (hb : ∀ b ∈ buffer, b < 256) :
    ((groupBits8 (buffer.flatMap (natToBits 8) ++ pad).length
        (buffer.flatMap (natToBits 8) ++ pad)).map bitsToNat) = buffer := by
  induction buffer with
  | nil =>
    simp only [List.flatMap_nil, List.nil_append]
    rw [groupBits8_short pad.length pad hpad]
    rfl
  | cons b bs ih =>
    rw [List.flatMap_cons, List.append_assoc,
      groupBits8_append _ _ _ (natToBits_length 8 b) (by
        simp only [List.length_append, natToBits_length]
        omega)]
    simp only [List.map_cons]
    rw [bitsToNat_natToBits, ih (fun x hx => hb x (List.mem_cons_of_mem _ hx))]
    have hblt : b < 256 := hb b (List.mem_cons_self _ _)
    congr 1
    omega

theorem base32CharBits_getD (v : Nat) (hv : v < 32) :
    base32CharBits (BASE32_CHARS.getD v 'A') = natToBits 5 v := by
  have : ∀ w ∈ List.range 32, base32CharBits (BASE32_CHARS.getD w 'A') = natToBits 5 w := by
    decide
  exact this v (List.mem_range.mpr hv)

/-- C2: for every byte array, decoding its Base32 encoding reproduces it
exactly — trailing partial 5-bit groups are zero-padded on encode and bits
not forming a full byte are discarded on decode. -/
theorem base32_roundtrip (buffer : List Nat) (hb : ∀ b ∈ buffer, b < 256) :
    base32Decode (base32Encode buffer) = buffer := by
  unfold base32Encode base32Decode
  rw [List.flatMap_map]
  have hmap : (groupBits5 (buffer.flatMap (natToBits 8)).length
          (buffer.flatMap (natToBits 8))).map
        (fun c => base32CharBits (BASE32_CHARS.getD (bitsToNat c) 'A')) =
      (groupBits5 (buffer.flatMap (natToBits 8)).length
          (buffer.flatMap (natToBits 8))).map id := by
    apply List.map_congr_left
    intro c hc
    have h5 : c.length = 5 := groupBits5_chunks_length _ _ le_rfl c hc
    have hlt : bitsToNat c < 32 := by
      have hl := bitsToNat_lt c
      rw [h5] at hl
      norm_num at hl
      exact hl
    simp only [id]
    rw [base32CharBits_getD _ hlt, natToBits_bitsToNat c 5 h5]
  have hflat : (groupBits5 (buffer.flatMap (natToBits 8)).length
          (buffer.flatMap (natToBits 8))).flatMap
        (fun c => base32CharBits (BASE32_CHARS.getD (bitsToNat c) 'A')) =
      (groupBits5 (buffer.flatMap (natToBits 8)).length
          (buffer.flatMap (natToBits 8))).flatten := by
    show ((groupBits5 (buffer.flatMap (natToBits 8)).length
          (buffer.flatMap (natToBits 8))).map
        (fun c => base32CharBits (BASE32_CHARS.getD (bitsToNat c) 'A'))).flatten = _
    rw [hmap, List.map_id]
  rw [hflat, groupBits5_flatten _ _ le_rfl]
  apply groupBits8_bytes buffer _ _ hb
  simp only [List.length_replicate]
  have := Nat.mod_lt (5 - (buffer.flatMap (natToBits 8)).length % 5) (show 0 < 5 by norm_num)
  omega

/-- C1: for every secret and every current time, verifying the code just
computed for that secret succeeds — `verifyTOTP(secret,
generateTOTP(secret))` is true with the source defaults of time step 30,
6 digits and drift window 1, for every HMAC function. -/
theorem totp_roundtrip (hmacSha1 : List Nat → List Nat → List Nat)
    (nowMs : Nat) (secret : String) :
    verifyTOTP hmacSha1 nowMs secret (generateTOTP hmacSha1 nowMs secret 30 6) 1 = true := by
  unfold verifyTOTP
  apply List.any_eq_true.mpr
  refine ⟨0, ?_, ?_⟩
  · decide
  · rw [Int.add_zero]
    apply beq_iff_eq.mpr
    unfold verifyStepCode generateTOTP
    norm_num

theorem or_digits (a b c d : Nat) (hb : b < 256) (hc : c < 256) (hd : d < 256) :
    (a <<< 24) ||| (b <<< 16) ||| (c <<< 8) ||| d =
      ((a * 256 + b) * 256 + c) * 256 + d := by
  rw [Nat.shiftLeft_eq, Nat.shiftLeft_eq, Nat.shiftLeft_eq]
  have s1 : a * 2 ^ 24 ||| b * 2 ^ 16 = 2 ^ 24 * a + 2 ^ 16 * b := by
    rw [show a * 2 ^ 24 = 2 ^ 24 * a by ring]
    rw [← Nat.mul_add_lt_is_or (show b * 2 ^ 16 < 2 ^ 24 by omega) a]
    ring
  rw [s1]
  have s2 : 2 ^ 24 * a + 2 ^ 16 * b ||| c * 2 ^ 8 = 2 ^ 24 * a + 2 ^ 16 * b + 2 ^ 8 * c := by
    rw [show 2 ^ 24 * a + 2 ^ 16 * b = 2 ^ 16 * (2 ^ 8 * a + b) by ring]
    rw [← Nat.mul_add_lt_is_or (show c * 2 ^ 8 < 2 ^ 16 by omega) (2 ^ 8 * a + b)]
    ring
  rw [s2]
  have s3 : 2 ^ 24 * a + 2 ^ 16 * b + 2 ^ 8 * c ||| d =
      2 ^ 24 * a + 2 ^ 16 * b + 2 ^ 8 * c + d := by
    rw [show 2 ^ 24 * a + 2 ^ 16 * b + 2 ^ 8 * c = 2 ^ 8 * (2 ^ 16 * a + 2 ^ 8 * b + c) by ring]
    rw [← Nat.mul_add_lt_is_or (show d < 2 ^ 8 by omega) (2 ^ 16 * a + 2 ^ 8 * b + c)]
  rw [s3]
  ring

theorem getD_lt_256 (l : List Nat) (i : Nat) (h : ∀ x ∈ l, x < 256) :
    l.getD i 0 < 256 := by
  by_cases hi : i < l.length
  · rw [List.getD_eq_getElem l 0 hi]
    exact h _ (List.getElem_mem hi)
  · rw [List.getD_eq_default l 0 (by omega)]
    norm_num

theorem and_mod_127 (x : Nat) : x &&& 127 = x % 128 := by
  have := Nat.and_pow_two_sub_one_eq_mod x 7
  norm_num at this
  exact this

theorem and_mod_255 (x : Nat) : x &&& 255 = x % 256 := by
  have := Nat.and_pow_two_sub_one_eq_mod x 8
  norm_num at this
  exact this

theorem and_mod_15 (x : Nat) : x &&& 15 = x % 16 := by
  have := Nat.and_pow_two_sub_one_eq_mod x 4
  norm_num at this
  exact this

/-- C3: `generateTOTP` performs RFC 4226 dynamic truncation exactly as the
spec words it — low 4 bits of the last HMAC byte as offset, 4 bytes from
that offset, first byte masked with 0x7F, big-endian unsigned 31-bit
value, reduced modulo `10 ^ digits`, zero-padded to `digits` characters —
given that the HMAC output consists of bytes. -/
theorem generateTOTP_rfc (hmacSha1 : List Nat → List Nat → List Nat) (nowMs : Nat)
    (secret : String) (timeStep digits : Nat)
    (h256 : ∀ x ∈ hmacSha1 (base32Decode secret.toList)
        (counterBytes ((nowMs / 1000 / timeStep : Nat) : Int)), x < 256) :
    generateTOTP hmacSha1 nowMs secret timeStep digits =
      specTruncate (hmacSha1 (base32Decode secret.toList)
        (counterBytes ((nowMs / 1000 / timeStep : Nat) : Int))) digits := by
  unfold generateTOTP specTruncate truncate31
  set h := hmacSha1 (base32Decode secret.toList)
    (counterBytes ((nowMs / 1000 / timeStep : Nat) : Int)) with hh
  simp only
  congr 1
  congr 1
  congr 1
  rw [and_mod_15, and_mod_127, and_mod_255, and_mod_255, and_mod_255]
  rw [or_digits _ _ _ _ (by omega) (by omega) (by omega)]
  have h1 : h.getD (h.getLastD 0 % 16 + 1) 0 % 256 = h.getD (h.getLastD 0 % 16 + 1) 0 :=
    Nat.mod_eq_of_lt (getD_lt_256 h _ h256)
  have h2 : h.getD (h.getLastD 0 % 16 + 2) 0 % 256 = h.getD (h.getLastD 0 % 16 + 2) 0 :=
    Nat.mod_eq_of_lt (getD_lt_256 h _ h256)
  have h3 : h.getD (h.getLastD 0 % 16 + 3) 0 % 256 = h.getD (h.getLastD 0 % 16 + 3) 0 :=
    Nat.mod_eq_of_lt (getD_lt_256 h _ h256)
  rw [h1, h2, h3]

theorem verifyTOTP_iff (hmacSha1 : List Nat → List Nat → List Nat) (nowMs : Nat)
    (secret code : String) (w : Nat) :
    verifyTOTP hmacSha1 nowMs secret code w = true ↔
      ∃ i : Int, -(w : Int) ≤ i ∧ i ≤ (w : Int) ∧
        verifyStepCode hmacSha1 secret (((nowMs / 1000 / 30 : Nat) : Int) + i) = code := by
  unfold verifyTOTP
  rw [List.any_eq_true]
  constructor
  · rintro ⟨x, hx, hbeq⟩
    rw [List.mem_map] at hx
    obtain ⟨j, hj, rfl⟩ := hx
    rw [List.mem_range] at hj
    exact ⟨(j : Int) - w, by omega, by omega, beq_iff_eq.mp hbeq⟩
  · rintro ⟨i, h1, h2, heq⟩
    refine ⟨i, ?_, beq_iff_eq.mpr heq⟩
    rw [List.mem_map]
    refine ⟨(i + w).toNat, ?_, ?_⟩
    · rw [List.mem_range]
      omega
    · omega

theorem gen_eq_step (hmacSha1 : List Nat → List Nat → List Nat) (nowMs : Nat)
    (secret : String) :
    generateTOTP hmacSha1 nowMs secret 30 6 =
      verifyStepCode hmacSha1 secret ((nowMs / 1000 / 30 : Nat) : Int) := by
  unfold generateTOTP verifyStepCode
  norm_num

/-- C4: a code computed at time-step offset -1, 0 or +1 verifies under
window 1, and a code computed at offset -2 or +2 does not verify with
window 1 unless it coincides with one of the three window codes. -/
theorem drift_tolerance (hmacSha1 : List Nat → List Nat → List Nat)
    (secret : String) (nowVer nowGen : Nat) :
    (((nowGen / 1000 / 30 : Nat) : Int) = ((nowVer / 1000 / 30 : Nat) : Int) - 1 ∨
       ((nowGen / 1000 / 30 : Nat) : Int) = ((nowVer / 1000 / 30 : Nat) : Int) ∨
       ((nowGen / 1000 / 30 : Nat) : Int) = ((nowVer / 1000 / 30 : Nat) : Int) + 1 →
      verifyTOTP hmacSha1 nowVer secret (generateTOTP hmacSha1 nowGen secret 30 6) 1 = true)
    ∧ (((nowGen / 1000 / 30 : Nat) : Int) = ((nowVer / 1000 / 30 : Nat) : Int) - 2 ∨
       ((nowGen / 1000 / 30 : Nat) : Int) = ((nowVer / 1000 / 30 : Nat) : Int) + 2 →
      (generateTOTP hmacSha1 nowGen secret 30 6 ≠
          verifyStepCode hmacSha1 secret (((nowVer / 1000 / 30 : Nat) : Int) + (-1)) ∧
        generateTOTP hmacSha1 nowGen secret 30 6 ≠
          verifyStepCode hmacSha1 secret (((nowVer / 1000 / 30 : Nat) : Int) + 0) ∧
        generateTOTP hmacSha1 nowGen secret 30 6 ≠
          verifyStepCode hmacSha1 secret (((nowVer / 1000 / 30 : Nat) : Int) + 1)) →
      verifyTOTP hmacSha1 nowVer secret (generateTOTP hmacSha1 nowGen secret 30 6) 1 = false) := by
  constructor
  · intro hk
    rw [verifyTOTP_iff, gen_eq_step]
    rcases hk with h | h | h
    · exact ⟨-1, by norm_num, by norm_num,
        congrArg (verifyStepCode hmacSha1 secret) (by omega)⟩
    · exact ⟨0, by norm_num, by norm_num,
        congrArg (verifyStepCode hmacSha1 secret) (by omega)⟩
    · exact ⟨1, by norm_num, by norm_num,
        congrArg (verifyStepCode hmacSha1 secret) (by omega)⟩
  · intro hk hne
    rw [← Bool.not_eq_true, verifyTOTP_iff]
    rintro ⟨i, h1, h2, heq⟩
    have hi : i = -1 ∨ i = 0 ∨ i = 1 := by omega
    rcases hi with rfl | rfl | rfl
    · exact hne.1 heq.symm
    · exact hne.2.1 heq.symm
    · exact hne.2.2 heq.symm

theorem padStart_length (s : String) (n : Nat) (c : Char) :
    (padStart s n c).length = max n s.length := by
  unfold padStart
  show (List.leftpad n c s.data).length = _
  rw [List.leftpad_length]
  rfl

theorem verifyStepCode_length (hmacSha1 : List Nat → List Nat → List Nat)
    (secret : String) (t : Int) :
    (verifyStepCode hmacSha1 secret t).length = 6 := by
  unfold verifyStepCode
  rw [padStart_length]
  have h := Nat.repr_length (truncate31 (hmacSha1 (base32Decode secret.toList)
    (counterBytes t)) % 1000000) 6 (by norm_num) (by
      have := Nat.mod_lt (truncate31 (hmacSha1 (base32Decode secret.toList)
        (counterBytes t))) (show 0 < 1000000 by norm_num)
      omega)
  simp only [String.length] at h ⊢
  omega

/-- C10: `verifyTOTP` accepts exactly the 6-character zero-padded window
codes — verification always reduces modulo `10 ^ 6` and pads to 6
characters regardless of any digits parameter used at generation, so a
candidate of any other shape (including an unpadded numeric equal) never
verifies. -/
theorem verify_exact_match (hmacSha1 : List Nat → List Nat → List Nat)
    (nowMs : Nat) (secret : String) (w : Nat) :
    (∀ code : String, verifyTOTP hmacSha1 nowMs secret code w = true ↔
      ∃ i : Int, -(w : Int) ≤ i ∧ i ≤ (w : Int) ∧
        code = verifyStepCode hmacSha1 secret (((nowMs / 1000 / 30 : Nat) : Int) + i))
    ∧ (∀ t : Int, (verifyStepCode hmacSha1 secret t).length = 6) := by
  constructor
  · intro code
    rw [verifyTOTP_iff]
    constructor
    · rintro ⟨i, h1, h2, heq⟩
      exact ⟨i, h1, h2, heq.symm⟩
    · rintro ⟨i, h1, h2, heq⟩
      exact ⟨i, h1, h2, heq.symm⟩
  · intro t
    exact verifyStepCode_length hmacSha1 secret t

theorem handleLogin_fail (hashP : String → String) (freshTok : String) (nowMs : Nat)
    (db : DB) (email password : String)
    (hne : email.isEmpty = false) (hnp : password.isEmpty = false)
    (h : ∀ u ∈ db.admin_users, u.email ≠ email ∨ u.password_hash ≠ hashP password) :
    handleLogin hashP freshTok nowMs db email password = (.invalidCredentials, db) := by
  unfold handleLogin
  have hfind : findUserByEmailHash db email (hashP password) = none := by
    unfold findUserByEmailHash
    rw [List.find?_eq_none]
    intro u hu
    rcases h u hu with h' | h' <;> simp [h']
  simp [hne, hnp, hfind]

/-- C5: the observable login failure is identical whether the email
matches no user or the email matches a user whose stored hash differs —
both runs return the very same invalid-credentials response with the
database unchanged, so the caller cannot distinguish the two. -/
theorem login_failure_indistinguishable (hashP : String → String)
    (freshTok : String) (nowMs : Nat) (db : DB) (e1 p1 e2 p2 : String)
    (hne1 : e1.isEmpty = false) (hnp1 : p1.isEmpty = false)
    (hne2 : e2.isEmpty = false) (hnp2 : p2.isEmpty = false)
    (hnouser : ∀ u ∈ db.admin_users, u.email ≠ e1)
    (hexists : ∃ u ∈ db.admin_users, u.email = e2)
    (hbadpw : ∀ u ∈ db.admin_users, u.email = e2 → u.password_hash ≠ hashP p2) :
    handleLogin hashP freshTok nowMs db e1 p1 = handleLogin hashP freshTok nowMs db e2 p2 ∧
    handleLogin hashP freshTok nowMs db e1 p1 = (.invalidCredentials, db) := by
  have case1 : handleLogin hashP freshTok nowMs db e1 p1 = (.invalidCredentials, db) :=
    handleLogin_fail hashP freshTok nowMs db e1 p1 hne1 hnp1
      (fun u hu => Or.inl (hnouser u hu))
  have case2 : handleLogin hashP freshTok nowMs db e2 p2 = (.invalidCredentials, db) :=
    handleLogin_fail hashP freshTok nowMs db e2 p2 hne2 hnp2
      (fun u hu => by
        by_cases he : u.email = e2
        · exact Or.inr (hbadpw u hu he)
        · exact Or.inl he)
  exact ⟨case1.trans case2.symm, case1⟩

/-- C7: the claim is false of the code. The session of `dbA` is stored
with `expires_at = isoString 1000`, the ISO rendering of the expiry
instant 1000 ms; at that exact instant, and at the last millisecond of the
same UTC day, `verifySession` still reports the session valid, because the
stored `toISOString` text compares lexicographically above the
`datetime(now)` text on any shared UTC date (letter T versus space at the
eleventh character). Only once the UTC date has rolled over does the
session expire. -/
theorem session_valid_at_expiry_instant :
    (verifySession dbA 1000 (some "Bearer T")).1 = true ∧
      (verifySession dbA 86399999 (some "Bearer T")).1 = true ∧
      (verifySession dbA 86400000 (some "Bearer T")).1 = false := by
  refine ⟨?_, ?_, ?_⟩ <;> decide

/-- C8: for every user and wrong password, `disable2FA` fails with the
invalid-password error and leaves the TOTP state unchanged —
`totp_secret` and `totp_enabled` keep the values they had before. -/
theorem disable2FA_wrong_password (hashP : String → String)
    (hmacSha1 : List Nat → List Nat → List Nat) (nowMs : Nat) (db : DB)
    (authHeader : Option String) (codeIn passwordIn : Option String)
    (uid : Nat) (em nm : String)
    (hauth : checkAuth db nowMs authHeader = some (uid, em, nm))
    (hpw : optTruthy passwordIn = true)
    (hwrong : ∀ u ∈ db.admin_users, u.id = uid →
      u.password_hash ≠ hashP (passwordIn.getD "")) :
    disable2FA hashP hmacSha1 nowMs db authHeader codeIn passwordIn =
        (.invalidPassword, db) ∧
      (disable2FA hashP hmacSha1 nowMs db authHeader codeIn passwordIn).2.admin_users.map
          (fun u => (u.totp_secret, u.totp_enabled)) =
        db.admin_users.map (fun u => (u.totp_secret, u.totp_enabled)) := by
  have hfind : findUserByIdHash db uid (hashP (passwordIn.getD "")) = none := by
    unfold findUserByIdHash
    rw [List.find?_eq_none]
    intro u hu
    by_cases hid : u.id = uid
    · have := hwrong u hu hid
      simp [hid, this]
    · simp [hid]
  have hmain : disable2FA hashP hmacSha1 nowMs db authHeader codeIn passwordIn =
      (.invalidPassword, db) := by
    unfold disable2FA
    rw [hauth]
    simp [hpw, hfind]
  exact ⟨hmain, by rw [hmain]⟩

theorem secret_of_truthy (o : Option String) (h : optTruthy o = true) : o ≠ none := by
  cases o with
  | none => simp [optTruthy] at h
  | some s => simp

/-- C9: the AdminUser invariant — TOTP secret non-null whenever the
TOTP-enabled flag is set — is preserved by `setup2FA` (fresh secret,
enabled cleared), `verify2FASetup` (enables only over a truthy stored
secret, given unique user ids per the primary key), and `disable2FA`
(clears secret and flag together). -/
theorem totp_invariant_preserved (hashP : String → String)
    (hmacSha1 : List Nat → List Nat → List Nat) (randomBytes : List Nat)
    (nowMs : Nat) (db : DB) (authHeader : Option String) (code : String)
    (codeIn passwordIn : Option String) :
    (totpInvariant db → totpInvariant (setup2FA randomBytes nowMs db authHeader).2)
    ∧ ((db.admin_users.map AdminUser.id).Nodup → totpInvariant db →
        totpInvariant (verify2FASetup hmacSha1 nowMs db authHeader code).2)
    ∧ (totpInvariant db →
        totpInvariant (disable2FA hashP hmacSha1 nowMs db authHeader codeIn passwordIn).2) := by
  refine ⟨?_, ?_, ?_⟩
  · intro hinv
    unfold setup2FA
    cases hauth : checkAuth db nowMs authHeader with
    | none => exact hinv
    | some r =>
      obtain ⟨uid, em, nm⟩ := r
      intro u hu
      simp only [updateUser, List.mem_map] at hu
      obtain ⟨u0, hu0, rfl⟩ := hu
      by_cases hid : (u0.id == uid) = true
      · simp [hid]
      · simp only [hid, if_false, Bool.false_eq_true]
        exact hinv u0 hu0
  · intro hnodup hinv
    unfold verify2FASetup
    cases hauth : checkAuth db nowMs authHeader with
    | none => exact hinv
    | some r =>
      obtain ⟨uid, em, nm⟩ := r
      by_cases hce : code.isEmpty
      · simp only [hce, if_true]
        exact hinv
      · simp only [hce, if_false, Bool.false_eq_true]
        cases hfu : findUserById db uid with
        | none => exact hinv
        | some user =>
          by_cases hsec : optTruthy user.totp_secret
          · simp only [hsec, Bool.not_true, if_false, Bool.false_eq_true]
            by_cases hv : verifyTOTP hmacSha1 nowMs (user.totp_secret.getD "") code 1
            · simp only [hv, Bool.not_true, if_false, Bool.false_eq_true]
              intro u hu
              simp only [updateUser, List.mem_map] at hu
              obtain ⟨u0, hu0, rfl⟩ := hu
              by_cases hid : (u0.id == uid) = true
              · simp only [hid, if_true]
                intro _
                have huser : user ∈ db.admin_users ∧ (user.id == uid) = true := by
                  have := List.find?_some hfu
                  exact ⟨List.mem_of_find?_eq_some hfu, this⟩
                have hequ : u0 = user := by
                  apply List.inj_on_of_nodup_map hnodup hu0 huser.1
                  have h1 : u0.id = uid := by simpa using hid
                  have h2 : user.id = uid := by simpa using huser.2
                  show u0.id = user.id
                  rw [h1, h2]
                rw [hequ]
                exact secret_of_truthy user.totp_secret hsec
              · simp only [hid, if_false, Bool.false_eq_true]
                exact hinv u0 hu0
            · simp only [hv, Bool.not_false, if_true]
              exact hinv
          · simp only [hsec, Bool.not_false, if_true]
            exact hinv
  · intro hinv
    unfold disable2FA
    cases hauth : checkAuth db nowMs authHeader with
    | none => exact hinv
    | some r =>
      obtain ⟨uid, em, nm⟩ := r
      by_cases hpw : optTruthy passwordIn
      · simp only [hpw, Bool.not_true, if_false, Bool.false_eq_true]
        cases hfu : findUserByIdHash db uid (hashP (passwordIn.getD "")) with
        | none => exact hinv
        | some user =>
          by_cases hc1 : (user.totp_enabled != 0 && optTruthy user.totp_secret
              && !(optTruthy codeIn)) = true
          · simp only [hc1, if_true]
            exact hinv
          · simp only [hc1, if_false, Bool.false_eq_true]
            by_cases hc2 : (user.totp_enabled != 0 && optTruthy user.totp_secret
                && !(verifyTOTP hmacSha1 nowMs (user.totp_secret.getD "")
                      (codeIn.getD "") 1)) = true
            · simp only [hc2, if_true]
              exact hinv
            · simp only [hc2, if_false, Bool.false_eq_true]
              intro u hu
              simp only [updateUser, List.mem_map] at hu
              obtain ⟨u0, hu0, rfl⟩ := hu
              by_cases hid : (u0.id == uid) = true
              · simp [hid]
              · simp only [hid, if_false, Bool.false_eq_true]
                exact hinv u0 hu0
      · simp only [hpw, Bool.not_false, if_true]
        exact hinv

/-- C6: once `verify2FALogin` has succeeded on a pending token the row is
deleted, so re-submitting the same pending token — even with a valid code
— fails with the session-expired error rather than issuing another
session; the fresh session token differs from the pending token, as
`generateToken` output never carries the pending-2fa- tag. -/
theorem pending_token_single_use (hmacSha1 : List Nat → List Nat → List Nat)
    (ft1 ft2 : String) (now1 now2 : Nat) (db : DB) (tempToken code1 code2 : String)
    (hsucc : isLoggedIn2FA (verify2FALogin hmacSha1 ft1 now1 db tempToken code1).1 = true)
    (hfresh : ft1 ≠ tempToken)
    (hcode : code2.isEmpty = false) :
    (verify2FALogin hmacSha1 ft2 now2
        (verify2FALogin hmacSha1 ft1 now1 db tempToken code1).2 tempToken code2).1 =
      .sessionExpired := by
  by_cases hmt : (tempToken.isEmpty || code1.isEmpty) = true
  · exfalso
    unfold verify2FALogin at hsucc
    rw [if_pos hmt] at hsucc
    simp [isLoggedIn2FA] at hsucc
  by_cases hpre : ("pending-2fa-".toList.isPrefixOf tempToken.toList) = true
  swap
  · exfalso
    unfold verify2FALogin at hsucc
    have hpre2 : ("pending-2fa-".toList.isPrefixOf tempToken.toList) = false :=
      eq_false_of_ne_true hpre
    rw [if_neg hmt, if_pos (by rw [hpre2]; rfl)] at hsucc
    simp [isLoggedIn2FA] at hsucc
  cases hfind : findLiveSession db tempToken now1 with
  | none =>
    exfalso
    unfold verify2FALogin at hsucc
    rw [if_neg hmt, if_neg (by rw [hpre]; decide), hfind] at hsucc
    simp [isLoggedIn2FA] at hsucc
  | some su =>
    obtain ⟨s, u⟩ := su
    by_cases hv : verifyTOTP hmacSha1 now1 (u.totp_secret.getD "") code1 1 = true
    swap
    · exfalso
      unfold verify2FALogin at hsucc
      have hv2 : verifyTOTP hmacSha1 now1 (u.totp_secret.getD "") code1 1 = false :=
        eq_false_of_ne_true hv
      rw [if_neg hmt, if_neg (by rw [hpre]; decide)] at hsucc
      simp only [hfind] at hsucc
      rw [if_pos (by rw [hv2]; rfl)] at hsucc
      simp [isLoggedIn2FA] at hsucc
    have hred : verify2FALogin hmacSha1 ft1 now1 db tempToken code1 =
        (.loggedIn ft1 s.user_id u.email u.name,
          updateLastLogin (insertSession (deleteSession db tempToken)
            ⟨s.user_id, ft1, isoString (now1 + 7 * 24 * 60 * 60 * 1000)⟩) s.user_id now1) := by
      unfold verify2FALogin
      rw [if_neg hmt, if_neg (by rw [hpre]; decide)]
      simp only [hfind]
      rw [if_neg (by rw [hv]; decide)]
    rw [hred]
    have hmt2 : (tempToken.isEmpty || code2.isEmpty) = false := by
      simp only [Bool.or_eq_true, not_or, Bool.not_eq_true] at hmt
      simp [hmt.1, hcode]
    have hfind2 : findLiveSession
        (updateLastLogin (insertSession (deleteSession db tempToken)
          ⟨s.user_id, ft1, isoString (now1 + 7 * 24 * 60 * 60 * 1000)⟩) s.user_id now1)
        tempToken now2 = none := by
      unfold findLiveSession
      have hsess : (updateLastLogin (insertSession (deleteSession db tempToken)
          ⟨s.user_id, ft1, isoString (now1 + 7 * 24 * 60 * 60 * 1000)⟩) s.user_id now1).sessions =
          db.sessions.filter (fun s0 => !(s0.token == tempToken)) ++
            [⟨s.user_id, ft1, isoString (now1 + 7 * 24 * 60 * 60 * 1000)⟩] := rfl
      rw [hsess]
      have hnone : (db.sessions.filter (fun s0 => !(s0.token == tempToken)) ++
          [(⟨s.user_id, ft1, isoString (now1 + 7 * 24 * 60 * 60 * 1000)⟩ : Session)]).find?
            (fun s0 => s0.token == tempToken && textLt (sqliteNow now2) s0.expires_at) = none := by
        rw [List.find?_eq_none]
        intro s0 hs0
        rcases List.mem_append.mp hs0 with hmem | hmem
        · have hp := List.of_mem_filter hmem
          simp only [Bool.not_eq_true'] at hp
          simp [hp]
        · rw [List.mem_singleton] at hmem
          subst hmem
          have hft : (ft1 == tempToken) = false := by
            simp [hfresh]
          simp [hft]
      rw [hnone]
      rfl
    unfold verify2FALogin
    rw [if_neg (by rw [hmt2]; decide), if_neg (by rw [hpre]; decide)]
    simp only [hfind2]

/-- C2 witness: the round trip evaluated on the concrete byte string
`Hello` (whose Base32 encoding is JBSWY3DP). -/
theorem base32_roundtrip_witness :
    base32Decode (base32Encode [72, 101, 108, 108, 111]) = [72, 101, 108, 108, 111] :=
  base32_roundtrip [72, 101, 108, 108, 111] (by decide)

/-- C3 witness: `generateTOTP` agrees with the spec-worded truncation at a
concrete HMAC, secret and time. -/
theorem generateTOTP_rfc_witness :
    generateTOTP dummyHmac 3000000 "GEZDGNBV" 30 6 =
      specTruncate (dummyHmac (base32Decode "GEZDGNBV".toList)
        (counterBytes ((3000000 / 1000 / 30 : Nat) : Int))) 6 :=
  generateTOTP_rfc dummyHmac 3000000 "GEZDGNBV" 30 6 (by decide)

/-- C4 witness: at verification time 3000000 ms (counter 100), a code
generated one step later verifies, and a code generated two steps later —
distinct from all three window codes — does not. -/
theorem drift_tolerance_witness :
    verifyTOTP dummyHmac 3000000 "GEZDGNBV"
        (generateTOTP dummyHmac 3030000 "GEZDGNBV" 30 6) 1 = true ∧
      verifyTOTP dummyHmac 3000000 "GEZDGNBV"
        (generateTOTP dummyHmac 3060000 "GEZDGNBV" 30 6) 1 = false :=
  ⟨(drift_tolerance dummyHmac "GEZDGNBV" 3000000 3030000).1 (by decide),
   (drift_tolerance dummyHmac "GEZDGNBV" 3000000 3060000).2 (by decide)
     (by refine ⟨?_, ?_, ?_⟩ <;> decide)⟩

/-- C10 witness: a candidate that is not a 6-character window code (here
the 3-character string 123) never verifies. -/
theorem verify_exact_match_witness : verifyTOTP dummyHmac 0 "AA" "123" 1 = false := by
  cases hb : verifyTOTP dummyHmac 0 "AA" "123" 1 with
  | false => rfl
  | true =>
    obtain ⟨i, _, _, heq⟩ := ((verify_exact_match dummyHmac 0 "AA" 1).1 "123").mp hb
    have hlen := (verify_exact_match dummyHmac 0 "AA" 1).2 (((0 / 1000 / 30 : Nat) : Int) + i)
    rw [← heq] at hlen
    exact absurd hlen (by decide)

/-- C5 witness: with the concrete store `dbA`, a login with an unknown
email and a login with the known email but a wrong password produce the
very same invalid-credentials response and state. -/
theorem login_failure_indistinguishable_witness :
    handleLogin dummyHash "F" 500 dbA "x@y.com" "pw" =
        handleLogin dummyHash "F" 500 dbA "a@b.com" "bad" ∧
      handleLogin dummyHash "F" 500 dbA "x@y.com" "pw" = (.invalidCredentials, dbA) :=
  login_failure_indistinguishable dummyHash "F" 500 dbA "x@y.com" "pw" "a@b.com" "bad"
    (by decide) (by decide) (by decide) (by decide) (by decide) (by decide) (by decide)

/-- C6 witness: after a successful 2FA login that consumed the pending
token, replaying the same token and code yields the session-expired
error. -/
theorem pending_token_single_use_witness :
    (verify2FALogin dummyHmac "T3" 3000000
        (verify2FALogin dummyHmac "T2" 3000000 dbPending "pending-2fa-X" "070140").2
        "pending-2fa-X" "070140").1 = .sessionExpired :=
  pending_token_single_use dummyHmac "T2" "T3" 3000000 3000000 dbPending
    "pending-2fa-X" "070140" "070140" (by decide) (by decide) (by decide)

/-- C8 witness: with the concrete store `dbA`, disabling 2FA with a wrong
password fails with the invalid-password error and leaves the store — in
particular the TOTP columns — unchanged. -/
theorem disable2FA_wrong_password_witness :
    disable2FA dummyHash dummyHmac 500 dbA (some "Bearer T") none (some "bad") =
        (.invalidPassword, dbA) ∧
      (disable2FA dummyHash dummyHmac 500 dbA (some "Bearer T") none
          (some "bad")).2.admin_users.map (fun u => (u.totp_secret, u.totp_enabled)) =
        dbA.admin_users.map (fun u => (u.totp_secret, u.totp_enabled)) :=
  disable2FA_wrong_password dummyHash dummyHmac 500 dbA (some "Bearer T") none
    (some "bad") 1 "a@b.com" "Admin" (by decide) (by decide) (by decide)

/-- C9 witness: the invariant holds after each of the three TOTP-mutating
operations run on the concrete store `dbA`. -/
theorem totp_invariant_preserved_witness :
    totpInvariant (setup2FA (List.range 20) 500 dbA (some "Bearer T")).2 ∧
      totpInvariant (verify2FASetup dummyHmac 500 dbA (some "Bearer T") "x").2 ∧
      totpInvariant (disable2FA dummyHash dummyHmac 500 dbA (some "Bearer T")
        none (some "pw")).2 :=
  ⟨(totp_invariant_preserved dummyHash dummyHmac (List.range 20) 500 dbA
      (some "Bearer T") "x" none (some "pw")).1 (by unfold totpInvariant; decide),
   (totp_invariant_preserved dummyHash dummyHmac (List.range 20) 500 dbA
      (some "Bearer T") "x" none (some "pw")).2.1 (by decide)
     (by unfold totpInvariant; decide),
   (totp_invariant_preserved dummyHash dummyHmac (List.range 20) 500 dbA
      (some "Bearer T") "x" none (some "pw")).2.2 (by unfold totpInvariant; decide)⟩
